import Mathlib

/-!
# Verification of the dumpctl store pipeline (src/dumpctl.c)

Shallow embedding of the parts of `dumpctl.c` that the claims C1-C10 are
about: the staging buffer (`struct fbuf`), the streaming copier
(`copy_file_to_fd`), the numeric argument parser (`parse_unum`, which wraps
`strtoumax` with base 0), the argv handling and sequencing of `act_store`,
the mkdir prefix walk, and the leaf-name formatting (`gmtime_r` +
`strftime "%F_%H:%M:%S"` + `snprintf ".pid=%ju.uid=%ju"`).

Modelling conventions:
* machine integers (`size_t`, `uintmax_t`) are `Nat`, with an explicit
  `% 2^64` where the C arithmetic can wrap;
* byte streams and buffers are `List Nat`;
* the external world (read results, write results, filesystem outcomes)
  is supplied through explicit schedules/oracles, so the theorems quantify
  over every behaviour the C library calls may exhibit;
* fatal `exit(EXIT_FAILURE)` paths are `Except.error` values, and the
  filesystem side effects performed before exiting are returned as an
  explicit trace.
-/

/-! ## Staging buffer: `struct fbuf` (dumpctl.c lines 114-156)

The C buffer is a 4096-byte array plus an occupancy counter
`bytes_in_buf`; we model the valid contents `buf[0 .. bytes_in_buf)` as a
list. `fbuf_feed`'s data effect is `bytes_in_buf += n` (the freshly read
bytes become valid), `fbuf_eat`'s is `memmove(buf, buf+n, bytes_in_buf-n);
bytes_in_buf -= n`, i.e. drop the first `n` bytes. -/

def FBUF_CAP : Nat := 4096

structure Fbuf where
  data : List Nat
deriving DecidableEq, Repr

def fbuf_init : Fbuf := ⟨[]⟩

def fbuf_data (f : Fbuf) : Nat := f.data.length

def fbuf_space (f : Fbuf) : Nat := FBUF_CAP - f.data.length

/-- Data effect of `fbuf_feed(f, bs.length)` after `bs` was written into the
tail, with the (broken, see `fbuf_feed_checked`) assert compiled out
(`NDEBUG`): occupancy grows by the fed bytes, unchecked. -/
def fbuf_feed (f : Fbuf) (bs : List Nat) : Fbuf := ⟨f.data ++ bs⟩

/-- `fbuf_eat(f, n)`: drop the first `n` buffered bytes, keeping the rest in
order (the `memmove` + `bytes_in_buf -= n`). The C code asserts
`n <= bytes_in_buf`. -/
def fbuf_eat (f : Fbuf) (n : Nat) : Fbuf := ⟨f.data.drop n⟩

/-- The occupancy arithmetic and assertion of `fbuf_feed` exactly as written
in the source (lines 119-123):

    f->bytes_in_buf += n;            (size_t, i.e. mod 2^64)
    assert(f->bytes_in_buf < n);

`some b` means the assert passes and the new occupancy is `b`; `none`
means the assert fires and the process aborts. Note the condition
`bytes_in_buf < n` holds after `+= n` only when the size_t addition
wrapped around, so the assert aborts on every ordinary feed. -/
def fbuf_feed_checked (bytes_in_buf n : Nat) : Option Nat :=
  let b := (bytes_in_buf + n) % 2 ^ 64
  if b < n then some b else none

/-! ## Streaming copier: `copy_file_to_fd` (dumpctl.c lines 214-269)

State of one copy in progress.  `rem` is the not-yet-read part of stdin,
`eofFlag` is the stdio end-of-file indicator of `in_file`, `buf` the
staging buffer contents, `out` the bytes accepted by the output fd so far,
`readB`/`writtenB` the C counters `read_bytes`/`written_bytes`, `err` the
error budget counter, and `ra`/`wa` count the `fread`/`write` attempts so
the schedules can be indexed. -/

structure CopySt where
  rem : List Nat
  eofFlag : Bool
  buf : List Nat
  out : List Nat
  readB : Nat
  writtenB : Nat
  err : Nat
  ra : Nat
  wa : Nat
deriving DecidableEq, Repr

inductive CRes where
  | ok (n : Nat)
  | fail
  | gas
deriving DecidableEq, Repr

/-- One execution of the `for(;;)` / inner `do { } while` nest of
`copy_file_to_fd`, driven by fuel (the C loop has none; all theorems are
stated about terminating runs and concrete runs use enough fuel).

`phase = false` is the top of the outer `for(;;)` loop, `phase = true` the
top of the inner `do`-`while` drain loop; `dr` is `done_reading`.

`rs : Nat → Nat` schedules the reads: the `n`-th `fread` of size `s` from
remaining input `rem` transfers `min s (min rem.length (rs n))` bytes —
`rs n = 0` with input left models a failed read (`rl == 0`, `!feof`),
`rs n < rem.length` a short error-truncated read (`ferror`, which the C
code ignores), anything `≥ s` a full read.  The stdio EOF indicator is set
exactly when the stream was exhausted before the request was satisfied,
and once set, further `fread` calls return 0 with `feof` true.  A size-0
`fread` (buffer full) returns 0 and does not touch the indicators.

`ws : Nat → Nat` schedules the writes: the `n`-th `write` of `d` bytes
accepts `min (ws n) d` bytes; `ws n = 0` models the `wl == 0` and `wl < 0`
error returns (which the C code treats identically: count and break). -/
def copyRun : Nat → (Nat → Nat) → (Nat → Nat) → Bool → Bool → CopySt → CRes × CopySt
  | 0, _, _, _, _, st => (CRes.gas, st)
  | fuel + 1, rs, ws, false, dr, st =>
    -- top of the outer for(;;): `if (err > 10) return -1;`
    if st.err > 10 then (CRes.fail, st)
    else
      -- `rl = fread(fbuf_space_ptr, 1, fbuf_space, in_file)`
      let s := FBUF_CAP - st.buf.length
      if s = 0 then
        -- zero-size fread: returns 0, indicators untouched
        if st.eofFlag then
          -- `feof` is already set: done_reading = true, feed 0 bytes
          copyRun fuel rs ws true true { st with ra := st.ra + 1 }
        else
          -- rl == 0 and !feof: counted as a read error, `continue`
          copyRun fuel rs ws false dr { st with ra := st.ra + 1, err := st.err + 1 }
      else if st.eofFlag then
        -- EOF indicator already set: fread returns 0, feof true
        copyRun fuel rs ws true true { st with ra := st.ra + 1 }
      else
        let j := min (min s st.rem.length) (rs st.ra)
        if j = 0 then
          if st.rem.length = 0 then
            -- hit end of stream: rl == 0, feof; done_reading = true, feed 0
            copyRun fuel rs ws true true
              { st with ra := st.ra + 1, eofFlag := true }
          else
            -- transient read error: rl == 0, !feof; err++, `continue`
            copyRun fuel rs ws false dr
              { st with ra := st.ra + 1, err := st.err + 1 }
        else
          -- fbuf_feed(&f, rl); read_bytes += rl; fall into the drain loop
          copyRun fuel rs ws true dr
            { st with ra := st.ra + 1,
                      buf := st.buf ++ st.rem.take j,
                      rem := st.rem.drop j,
                      readB := st.readB + j,
                      eofFlag := decide (j < s ∧ j = st.rem.length) }
  | fuel + 1, rs, ws, true, dr, st =>
    -- top of the inner do-while: `if (fbuf_data == 0) return written_bytes;`
    if st.buf.length = 0 then (CRes.ok st.writtenB, st)
    else
      -- `wl = write(out_fd, fbuf_data_ptr, fbuf_data)`
      let wl := min (ws st.wa) st.buf.length
      if wl = 0 then
        -- wl == 0 or wl < 0: err++, `break` out to the outer loop
        copyRun fuel rs ws false dr { st with wa := st.wa + 1, err := st.err + 1 }
      else
        -- fbuf_eat(&f, wl); written_bytes += wl;
        let st' : CopySt :=
          { st with wa := st.wa + 1,
                    buf := st.buf.drop wl,
                    out := st.out ++ st.buf.take wl,
                    writtenB := st.writtenB + wl }
        -- `} while (fbuf_space(&f) == 0 || done_reading);`
        if FBUF_CAP - st'.buf.length = 0 ∨ dr = true then
          copyRun fuel rs ws true dr st'
        else
          copyRun fuel rs ws false dr st'

def initCopySt (input : List Nat) : CopySt :=
  ⟨input, false, [], [], 0, 0, 0, 0, 0⟩

/-- `copy_file_to_fd(out_fd, stdin)` on a given finite stdin, with read and
write schedules as in `copyRun`. -/
def copy_file_to_fd (fuel : Nat) (rs ws : Nat → Nat) (input : List Nat) :
    CRes × CopySt :=
  copyRun fuel rs ws false false (initCopySt input)

/-! ## C1: copy fidelity -/

/-- Loop invariant of `copy_file_to_fd`: everything read so far is either
already written (`out`) or still staged (`buf`); the counters track the
lengths; the EOF indicator is only set once the input is exhausted; the
staging buffer never exceeds its capacity. -/
def CopyInv (input : List Nat) (st : CopySt) : Prop :=
  st.out ++ st.buf ++ st.rem = input ∧
  st.readB = st.out.length + st.buf.length ∧
  st.writtenB = st.out.length ∧
  (st.eofFlag = true → st.rem = []) ∧
  st.buf.length ≤ FBUF_CAP

theorem copyRun_ok (input : List Nat) :
    ∀ (fuel : Nat) (rs ws : Nat → Nat) (phase dr : Bool) (st : CopySt)
      (t : Nat) (st' : CopySt),
      CopyInv input st →
      (dr = true → st.eofFlag = true) →
      (phase = true → st.buf = [] → st.eofFlag = true) →
      copyRun fuel rs ws phase dr st = (CRes.ok t, st') →
      st'.out = input ∧ t = input.length ∧ st'.writtenB = t ∧ st'.readB = t := by
  intro fuel
  induction fuel with
  | zero =>
    intro rs ws phase dr st t st' _ _ _ hrun
    simp [copyRun] at hrun
  | succ n ih =>
    intro rs ws phase dr st t st' hinv hdr hbe hrun
    obtain ⟨h1, h2, h3, h4, h5⟩ := hinv
    cases phase with
    | false =>
      simp only [copyRun] at hrun
      split at hrun
      · -- err > 10: returns fail, contradicting ok
        simp at hrun
      · split at hrun
        · -- fbuf_space = 0: zero-size fread, indicators untouched
          split at hrun
          · -- feof already set: drain with done_reading = true
            rename_i heof
            refine ih rs ws true true _ t st' ?_ ?_ ?_ hrun
            · exact ⟨h1, h2, h3, h4, h5⟩
            · exact fun _ => heof
            · exact fun _ _ => heof
          · -- rl == 0, !feof: counted as a transient read error
            refine ih rs ws false dr _ t st' ?_ ?_ ?_ hrun
            · exact ⟨h1, h2, h3, h4, h5⟩
            · exact hdr
            · simp
        · split at hrun
          · -- EOF indicator set, space available: fread returns 0, feof
            rename_i heof
            refine ih rs ws true true _ t st' ?_ ?_ ?_ hrun
            · exact ⟨h1, h2, h3, h4, h5⟩
            · exact fun _ => heof
            · exact fun _ _ => heof
          · rename_i hs heof
            set j := min (min (FBUF_CAP - st.buf.length) st.rem.length) (rs st.ra)
              with hjdef
            split at hrun
            · split at hrun
              · -- input exhausted: rl == 0, feof; done_reading = true
                rename_i hj hrem
                refine ih rs ws true true _ t st' ?_ ?_ ?_ hrun
                · exact ⟨h1, h2, h3, fun _ => List.length_eq_zero.mp hrem, h5⟩
                · exact fun _ => rfl
                · exact fun _ _ => rfl
              · -- transient read error: rl == 0, !feof
                refine ih rs ws false dr _ t st' ?_ ?_ ?_ hrun
                · exact ⟨h1, h2, h3, h4, h5⟩
                · exact hdr
                · simp
            · -- a successful (possibly partial) read of j bytes
              rename_i hj
              have hjr : j ≤ st.rem.length := by
                rw [hjdef]
                exact le_trans (Nat.min_le_left _ _) (Nat.min_le_right _ _)
              have hjs : j ≤ FBUF_CAP - st.buf.length := by
                rw [hjdef]
                exact le_trans (Nat.min_le_left _ _) (Nat.min_le_left _ _)
              have hdrf : dr = false := by
                cases hd : dr with
                | false => rfl
                | true => exact absurd (hdr hd) heof
              subst hdrf
              refine ih rs ws true false _ t st' ?_ ?_ ?_ hrun
              · refine ⟨?_, ?_, h3, ?_, ?_⟩
                · simpa only [List.append_assoc, List.take_append_drop] using h1
                · show st.readB + j =
                    st.out.length + (st.buf ++ st.rem.take j).length
                  simp only [List.length_append, List.length_take]
                  rw [Nat.min_eq_left hjr]
                  omega
                · show (decide (j < FBUF_CAP - st.buf.length ∧
                      j = st.rem.length)) = true → st.rem.drop j = []
                  intro hf
                  simp only [decide_eq_true_eq] at hf
                  rw [hf.2]
                  exact List.drop_length st.rem
                · show (st.buf ++ st.rem.take j).length ≤ FBUF_CAP
                  simp only [List.length_append, List.length_take]
                  rw [Nat.min_eq_left hjr]
                  omega
              · simp
              · intro _ hnil
                exfalso
                have hlen := congrArg List.length hnil
                simp only [List.length_append, List.length_take,
                  List.length_nil] at hlen
                rw [Nat.min_eq_left hjr] at hlen
                omega
    | true =>
      simp only [copyRun] at hrun
      split at hrun
      · -- fbuf_data == 0: return written_bytes
        rename_i hb0
        have hbnil : st.buf = [] := List.length_eq_zero.mp hb0
        have heof : st.eofFlag = true := hbe rfl hbnil
        have hrem : st.rem = [] := h4 heof
        simp only [Prod.mk.injEq, CRes.ok.injEq] at hrun
        obtain ⟨ht, hst⟩ := hrun
        subst hst
        have hout : st.out = input := by simpa [hbnil, hrem] using h1
        have hl := congrArg List.length hout
        have hbl := congrArg List.length hbnil
        simp only [List.length_nil] at hbl
        exact ⟨hout, by omega, by omega, by omega⟩
      · -- buffer non-empty: attempt a write
        rename_i hb0
        set wl := min (ws st.wa) st.buf.length with hwldef
        have hwlb : wl ≤ st.buf.length := by
          rw [hwldef]
          exact Nat.min_le_right _ _
        split at hrun
        · -- wl == 0 or wl < 0: err++, break to the outer loop
          refine ih rs ws false dr _ t st' ?_ ?_ ?_ hrun
          · exact ⟨h1, h2, h3, h4, h5⟩
          · exact hdr
          · simp
        · rename_i hwl
          split at hrun
          · -- keep draining: buffer still full, or done reading
            rename_i hcond
            refine ih rs ws true dr _ t st' ?_ ?_ ?_ hrun
            · refine ⟨?_, ?_, ?_, h4, ?_⟩
              · show st.out ++ st.buf.take wl ++ st.buf.drop wl ++ st.rem = input
                rw [List.append_assoc st.out, List.take_append_drop]
                exact h1
              · show st.readB =
                  (st.out ++ st.buf.take wl).length + (st.buf.drop wl).length
                simp only [List.length_append, List.length_take, List.length_drop]
                rw [Nat.min_eq_left hwlb]
                omega
              · show st.writtenB + wl = (st.out ++ st.buf.take wl).length
                simp only [List.length_append, List.length_take]
                rw [Nat.min_eq_left hwlb]
                omega
              · show (st.buf.drop wl).length ≤ FBUF_CAP
                simp only [List.length_drop]
                omega
            · exact hdr
            · intro _ hnil
              have hlen := congrArg List.length hnil
              simp only [List.length_drop, List.length_nil] at hlen
              rcases hcond with hfull | hdone
              · exfalso
                simp only [List.length_drop, FBUF_CAP] at hfull
                omega
              · exact hdr hdone
          · -- space freed and not done reading: back to the outer loop
            refine ih rs ws false dr _ t st' ?_ ?_ ?_ hrun
            · refine ⟨?_, ?_, ?_, h4, ?_⟩
              · show st.out ++ st.buf.take wl ++ st.buf.drop wl ++ st.rem = input
                rw [List.append_assoc st.out, List.take_append_drop]
                exact h1
              · show st.readB =
                  (st.out ++ st.buf.take wl).length + (st.buf.drop wl).length
                simp only [List.length_append, List.length_take, List.length_drop]
                rw [Nat.min_eq_left hwlb]
                omega
              · show st.writtenB + wl = (st.out ++ st.buf.take wl).length
                simp only [List.length_append, List.length_take]
                rw [Nat.min_eq_left hwlb]
                omega
              · show (st.buf.drop wl).length ≤ FBUF_CAP
                simp only [List.length_drop]
                omega
            · exact hdr
            · simp

/-- C1: For every finite input byte sequence (including the empty sequence)
fed to the streaming copier, under any schedule of transient read/write
outcomes, if the copy returns success then the bytes written to the output
equal the bytes read from the input, in the same order, the whole input was
consumed, and the returned total (`written_bytes`) equals the total bytes
read. -/
theorem c1_copy_fidelity (fuel : Nat) (rs ws : Nat → Nat) (input : List Nat)
    (t : Nat) (st' : CopySt)
    (h : copy_file_to_fd fuel rs ws input = (CRes.ok t, st')) :
    st'.out = input ∧ t = input.length ∧ st'.writtenB = t ∧ st'.readB = t := by
  refine copyRun_ok input fuel rs ws false false (initCopySt input) t st'
    ?_ ?_ ?_ h
  · exact ⟨rfl, rfl, rfl, by simp [initCopySt], by simp [initCopySt, FBUF_CAP]⟩
  · simp
  · simp

theorem c1_copy_fidelity_witness :
    (copy_file_to_fd 10 (fun _ => 4096) (fun _ => 4096) [1, 2, 3]).2.out
        = [1, 2, 3] ∧
      (3 : Nat) = [1, 2, 3].length ∧
      (copy_file_to_fd 10 (fun _ => 4096) (fun _ => 4096) [1, 2, 3]).2.writtenB
        = 3 ∧
      (copy_file_to_fd 10 (fun _ => 4096) (fun _ => 4096) [1, 2, 3]).2.readB
        = 3 :=
  c1_copy_fidelity 10 (fun _ => 4096) (fun _ => 4096) [1, 2, 3] 3
    (copy_file_to_fd 10 (fun _ => 4096) (fun _ => 4096) [1, 2, 3]).2 rfl

/-- Helper for C2: once the staging buffer is completely full and the EOF
indicator is not set, the outer loop can never again reach a successful
return: every `fread` is a size-0 read returning 0 without `feof`, counted
as an error, and the pending write is never retried.  The run can only run
out of fuel or exhaust the error budget and fail. -/
theorem copyRun_full_buffer_stuck (rs ws : Nat → Nat) :
    ∀ (fuel : Nat) (dr : Bool) (st : CopySt),
      FBUF_CAP - st.buf.length = 0 → st.eofFlag = false →
      (copyRun fuel rs ws false dr st).1 = CRes.gas ∨
        (copyRun fuel rs ws false dr st).1 = CRes.fail := by
  intro fuel
  induction fuel with
  | zero =>
    intro dr st _ _
    left
    rfl
  | succ n ih =>
    intro dr st hfull heof
    simp only [copyRun]
    split
    · right
      rfl
    · have hne : ¬(st.eofFlag = true) := by simp [heof]
      rw [if_neg hne]
      exact ih dr _ hfull heof

theorem copy_step1 (rs ws : Nat → Nat) (f : Nat) (input : List Nat)
    (hlen : input.length = FBUF_CAP) (hrs : FBUF_CAP ≤ rs 0) :
    copy_file_to_fd (f + 1) rs ws input =
      copyRun f rs ws true false
        ⟨[], false, input, [], FBUF_CAP, 0, 0, 1, 0⟩ := by
  have hlen4 : input.length = 4096 := by rw [hlen]; rfl
  have hrs4 : (4096 : Nat) ≤ rs 0 := hrs
  rw [copy_file_to_fd, copyRun]
  simp only [initCopySt]
  norm_num [FBUF_CAP]
  have hne : ¬(input = [] ∨ rs 0 = 0) := by
    rintro (h | h)
    · rw [h] at hlen4
      simp at hlen4
    · omega
  rw [if_neg hne]
  have hmin : 4096 ⊓ (input.length ⊓ rs 0) = 4096 := by
    rw [hlen4]
    omega
  rw [hmin]
  have hdrop : List.drop 4096 input = [] := by
    rw [← hlen4]
    exact List.drop_length input
  have htake : List.take 4096 input = input := by
    rw [← hlen4]
    exact List.take_length input
  rw [hdrop, htake]
  have hflag : ((!decide ((4096 : Nat) ≤ input.length) || decide (rs 0 < 4096)) &&
      decide ((4096 : Nat) = input.length)) = false := by
    have : ¬ (rs 0 < 4096) := by omega
    simp [hlen4, this]
  rw [hflag]

theorem copy_step2 (rs ws : Nat → Nat) (g : Nat) (input : List Nat)
    (hlen : input.length = FBUF_CAP) (hws : ws 0 = 0) :
    copyRun (g + 1) rs ws true false
        ⟨[], false, input, [], FBUF_CAP, 0, 0, 1, 0⟩ =
      copyRun g rs ws false false
        ⟨[], false, input, [], FBUF_CAP, 0, 1, 1, 1⟩ := by
  have hlen4 : input.length = 4096 := by rw [hlen]; rfl
  rw [copyRun]
  have hne : ¬ (input.length = 0) := by omega
  norm_num [hne, hws]

/-- For every input that exactly fills the 4096-byte staging buffer, with
the first read transferring everything (`FBUF_CAP ≤ rs 0`) and a
transient write failure on the very first write attempt (`ws 0 = 0`) —
regardless of how the later writes and reads would behave — the copy
never returns success, for any amount of fuel: after the failed write the
code `break`s back to the read loop instead of retrying the drain; the
buffer is full, so every subsequent `fread` is a size-0 read returning 0
without EOF, which the code counts as a read error, and the error budget
is exhausted without the write ever being retried (despite the code's own
"will retry" diagnostic). -/
theorem copy_write_fail_full_buffer (input : List Nat) (rs ws : Nat → Nat)
    (hlen : input.length = FBUF_CAP) (hrs : FBUF_CAP ≤ rs 0) (hws : ws 0 = 0)
    (fuel t : Nat) :
    (copy_file_to_fd fuel rs ws input).1 ≠ CRes.ok t := by
  intro hok
  match fuel, hok with
  | 0, hok => simp [copy_file_to_fd, copyRun] at hok
  | f + 1, hok =>
    rw [copy_step1 rs ws f input hlen hrs] at hok
    match f, hok with
    | 0, hok => simp [copyRun] at hok
    | g + 1, hok =>
      rw [copy_step2 rs ws g input hlen hws] at hok
      rcases copyRun_full_buffer_stuck rs ws g false
          ⟨[], false, input, [], FBUF_CAP, 0, 1, 1, 1⟩
          (by show FBUF_CAP - input.length = 0; rw [hlen]; exact Nat.sub_self _)
          rfl with h | h
      · rw [hok] at h
        exact CRes.noConfusion h
      · rw [hok] at h
        exact CRes.noConfusion h

/-- C2: the claim promises that any run with at most 10 transient
failures, each of which would succeed on retry, still completes.  Concrete
violation: stdin is 4096 bytes of `7` (exactly filling the staging
buffer), reads never fail, and only the very first write transiently
fails — every later write would accept all bytes offered.  That is a
single transient failure that succeeds on retry, yet the copy never
returns success for any amount of fuel (see
`copy_write_fail_full_buffer` for why: the failed write is never retried
and the error budget is burned by size-0 reads). -/
theorem c2_error_budget_not_survivable (fuel t : Nat) :
    (copy_file_to_fd fuel (fun _ => 4096) (fun n => if n = 0 then 0 else 4096)
        (List.replicate 4096 7)).1 ≠ CRes.ok t :=
  copy_write_fail_full_buffer (List.replicate 4096 7) (fun _ => 4096)
    (fun n => if n = 0 then 0 else 4096)
    (by rw [List.length_replicate]; rfl) (Nat.le_refl _) rfl fuel t

/-- C3: the claim says a feed pushing occupancy above the 4096-byte
capacity aborts as a contract violation and is never silently accepted.
The assert in `fbuf_feed` is written as `assert(f->bytes_in_buf < n)`
*after* `bytes_in_buf += n`, which is false for every non-wrapping feed:
the perfectly legal feed of 1 byte into an empty buffer trips the assert
(first conjunct), and with assertions compiled out (`NDEBUG`) a feed of
4097 bytes into the empty buffer is silently accepted, leaving occupancy
4097 > 4096 (second conjunct). -/
theorem c3_feed_assert_inverted :
    fbuf_feed_checked 0 1 = none ∧
      fbuf_data (fbuf_feed fbuf_init (List.replicate 4097 0)) = 4097 := by
  constructor
  · rfl
  · show (([] : List Nat) ++ List.replicate 4097 0).length = 4097
    rw [List.nil_append, List.length_replicate]

/-! ## Numeric argument parsing: `parse_unum` (dumpctl.c lines 158-175)

`parse_unum` calls `strtoumax(n, &end, 0)` and then checks
`v == UINTMAX_MAX && errno` (overflow) and `*end != '\0'` (trailing
characters).  We model `strtoumax` with base 0 per ISO C / POSIX: optional
leading whitespace, an optional `+`/`-` sign (a `-` negates the value in
uintmax_t arithmetic, i.e. modulo 2^64), a `0x`/`0X` prefix selecting hex,
a leading `0` selecting octal, decimal otherwise; the longest valid digit
sequence is consumed; on magnitude overflow the result saturates to
UINTMAX_MAX with errno = ERANGE; if no digits are consumed the end pointer
is reset to the original string and 0 is returned. -/

def UINTMAX_MAX : Nat := 2 ^ 64 - 1

/-- The `isspace` set skipped by `strtoumax`. -/
def isSpaceC (c : Char) : Bool :=
  c = ' ' || c = '\t' || c = '\n' || c = '\x0b' || c = '\x0c' || c = '\r'

/-- Value of a digit character, as accepted up to base 16. -/
def hexVal (c : Char) : Option Nat :=
  if '0' ≤ c ∧ c ≤ '9' then some (c.toNat - 48)
  else if 'a' ≤ c ∧ c ≤ 'f' then some (c.toNat - 87)
  else if 'A' ≤ c ∧ c ≤ 'F' then some (c.toNat - 55)
  else none

/-- Consume the longest prefix of digits valid in `base`, accumulating the
(unbounded) magnitude; returns (magnitude, digits consumed, rest). -/
def digitsVal (base : Nat) : List Char → Nat → Nat → Nat × Nat × List Char
  | [], acc, cnt => (acc, cnt, [])
  | c :: cs, acc, cnt =>
    match hexVal c with
    | some d =>
      if d < base then digitsVal base cs (acc * base + d) (cnt + 1)
      else (acc, cnt, c :: cs)
    | none => (acc, cnt, c :: cs)

/-- Digit scan of `strtoumax(·, ·, 0)` after the sign: base prefix
detection and longest-match digit consumption.  A `0x` not followed by a
hex digit consumes just the `0`. -/
def strtoScan : List Char → Nat × Nat × List Char
  | '0' :: 'x' :: t =>
    if (t.head?.bind hexVal).isSome then digitsVal 16 t 0 0
    else (0, 1, 'x' :: t)
  | '0' :: 'X' :: t =>
    if (t.head?.bind hexVal).isSome then digitsVal 16 t 0 0
    else (0, 1, 'X' :: t)
  | '0' :: t => digitsVal 8 ('0' :: t) 0 0
  | t => digitsVal 10 t 0 0

structure StrtoRes where
  value : Nat
  erange : Bool
  rest : List Char
deriving DecidableEq, Repr

/-- `strtoumax(s, &end, 0)`: returns the converted value, whether errno was
set to ERANGE, and the string left at `end`. -/
def strtoumax0 (s : List Char) : StrtoRes :=
  let ws := s.dropWhile isSpaceC
  let sgn : Bool × List Char :=
    match ws with
    | '-' :: t => (true, t)
    | '+' :: t => (false, t)
    | t => (false, t)
  let scan := strtoScan sgn.2
  if scan.2.1 = 0 then
    -- no conversion performed: end = nptr, value 0, errno untouched
    { value := 0, erange := false, rest := s }
  else
    let mag := scan.1
    if mag > UINTMAX_MAX then
      { value := UINTMAX_MAX, erange := true, rest := scan.2.2 }
    else
      { value := if sgn.1 then (2 ^ 64 - mag % 2 ^ 64) % 2 ^ 64 else mag,
        erange := false, rest := scan.2.2 }

inductive PErr where
  | range (field : String)
  | trailing (field : String)
deriving DecidableEq, Repr

/-- `parse_unum(n, name)`: fatal (`Except.error`) on overflow
(`v == UINTMAX_MAX && errno`) or trailing characters (`*end != '\0'`),
otherwise the converted value. -/
def parse_unum (n : String) (name : String) : Except PErr Nat :=
  let r := strtoumax0 n.data
  if r.value = UINTMAX_MAX ∧ r.erange = true then Except.error (PErr.range name)
  else if r.rest ≠ [] then Except.error (PErr.trailing name)
  else Except.ok r.value

/-! ## Leaf-name formatting (dumpctl.c lines 332-356)

`act_store` converts the timestamp with `gmtime_r`, formats it with
`strftime(path_buf, PATH_MAX, "%F_%H:%M:%S", &tm)` and appends
`snprintf(p, PATH_MAX - b, ".pid=%ju.uid=%ju", pid, uid)`.

`civilFromDays` models `gmtime_r`'s date computation (proleptic Gregorian
calendar, days since 1970-01-01) for non-negative day counts; the model is
faithful for timestamps below 2^63, where the C conversion
`time_t ts_time = ts` does not overflow (the code's own FIXME notes the
unchecked conversion). -/

def civilFromDays (z : Nat) : Nat × Nat × Nat :=
  let z' := z + 719468
  let era := z' / 146097
  let doe := z' % 146097
  let yoe := (doe - doe / 1460 + doe / 36524 - doe / 146096) / 365
  let y := yoe + era * 400
  let doy := doe - (365 * yoe + yoe / 4 - yoe / 100)
  let mp := (5 * doy + 2) / 153
  let d := doy - (153 * mp + 2) / 5 + 1
  let m := if mp < 10 then mp + 3 else mp - 9
  (if m ≤ 2 then y + 1 else y, m, d)

def pad2 (n : Nat) : String :=
  if n < 10 then "0" ++ Nat.repr n else Nat.repr n

/-- `strftime "%F_%H:%M:%S"` on `gmtime_r(ts)`:
`YYYY-MM-DD_HH:MM:SS` (the year unpadded, as glibc `%Y`; it is at least
four digits for every timestamp ≥ 0). -/
def utcFormat (ts : Nat) : String :=
  let days := ts / 86400
  let secs := ts % 86400
  let ymd := civilFromDays days
  Nat.repr ymd.1 ++ "-" ++ pad2 ymd.2.1 ++ "-" ++ pad2 ymd.2.2 ++ "_" ++
    pad2 (secs / 3600) ++ ":" ++ pad2 (secs % 3600 / 60) ++ ":" ++
    pad2 (secs % 60)

def PATH_MAX : Nat := 4096

/-- The `snprintf ".pid=%ju.uid=%ju"` suffix. -/
def leafSuffix (pid uid : Nat) : String :=
  ".pid=" ++ Nat.repr pid ++ ".uid=" ++ Nat.repr uid

inductive LeafErr where
  | strftimeFail
  | tooLong (needed : Nat)
deriving DecidableEq, Repr

/-- The leaf-name construction of `act_store`: `strftime` into a
`PATH_MAX` buffer (returns 0, fatal, iff the formatted time plus NUL does
not fit), then `snprintf` of the suffix into the remaining space; if the
suffix needs more than `PATH_MAX - b - 1` bytes the code fails fatally
reporting the needed byte count `r` (the `snprintf` return value). -/
def formatLeaf (ts pid uid : Nat) : Except LeafErr String :=
  let date := utcFormat ts
  if date.length ≥ PATH_MAX then Except.error LeafErr.strftimeFail
  else
    let suffix := leafSuffix pid uid
    if suffix.length > PATH_MAX - date.length - 1 then
      Except.error (LeafErr.tooLong suffix.length)
    else
      Except.ok (date ++ suffix)

/-! ## mkdir prefix walk (dumpctl.c lines 305-324)

Starting at `p = dir + 1`, the loop repeatedly finds the next `'/'`,
truncates the string there, calls `mkdir(dir, 0777)`, restores the
separator and continues; when no `'/'` is left it mkdirs the whole
string and stops.  The sequence of paths passed to `mkdir` is therefore
every prefix of `dir` ending just before a `'/'` at position ≥ 1, in
order, followed by `dir` itself. -/

/-- Split at the first `'/'`: `some (before, after)` with
`cs = before ++ '/' :: after`, or `none` if there is no `'/'`. -/
def takeUntilSlash : List Char → Option (List Char × List Char)
  | [] => none
  | c :: cs =>
    if c = '/' then some ([], cs)
    else
      match takeUntilSlash cs with
      | none => none
      | some (b, a) => some (c :: b, a)

/-- The successive prefixes passed to `mkdir`, accumulated; `fuel` is an
upper bound on the number of separators left (`rest.length` suffices). -/
def mkdirWalkAux : Nat → List Char → List Char → List (List Char)
  | 0, acc, rest => [acc ++ rest]
  | fuel + 1, acc, rest =>
    match takeUntilSlash rest with
    | none => [acc ++ rest]
    | some (b, a) => (acc ++ b) :: mkdirWalkAux fuel (acc ++ b ++ ['/']) a

/-- The ordered list of paths `act_store` passes to `mkdir(·, 0777)` for a
given (non-empty, in the pipeline always absolute) directory string. -/
def mkdirWalk (dir : String) : List String :=
  match dir.data with
  | [] => [dir]
  | c :: rest => (mkdirWalkAux rest.length [c] rest).map fun l => { data := l }

/-- Outcome of running the walk against a filesystem (a list of existing
paths) with an oracle `hf` choosing which creations fail hard (any
`errno != EEXIST`): returns the paths attempted in order, and the final
filesystem, or `none` if a hard failure aborted the walk (fatal in C). -/
def runMkdirs (hf : String → Bool) (fs : List String) :
    List String → List String × Option (List String)
  | [] => ([], some fs)
  | p :: ps =>
    if p ∈ fs then
      -- mkdir returns -1 with errno == EEXIST: treated as success
      let r := runMkdirs hf fs ps
      (p :: r.1, r.2)
    else if hf p then ([p], none)
    else
      let r := runMkdirs hf (p :: fs) ps
      (p :: r.1, r.2)

/-! ## The store action: `act_store` (dumpctl.c lines 271-398)

`main` shifts `argv += optind + 1` past the options and the action word
before calling `act_store(dir, argc, argv)` — but `act_store` then indexes
`argv[optind + 1] .. argv[optind + 8]` and computes `ct = argc - optind`
with the *stale* global `optind` (1 when no option flags were given).

We model the shifted argument vector as `args : List String`; index
`args.length` is the terminating NULL pointer of the C `argv`, and any
index beyond it is an out-of-bounds read (undefined behaviour). -/

inductive ArgRead where
  | tok (s : String)
  | null
  | oob
deriving DecidableEq, Repr

def argvGet (args : List String) (i : Nat) : ArgRead :=
  match args.get? i with
  | some s => ArgRead.tok s
  | none => if i = args.length then ArgRead.null else ArgRead.oob

inductive StoreErr where
  | usageErr
  | parseFail (e : PErr)
  | nullArg (field : String)
  | oobArg (field : String)
  | mkdirFail
  | opendirFail
  | strftimeFail
  | pathTooLong (needed : Nat)
  | openLeafFail
  | openCoreFail
  | copyFail
  | openInfoFail
  | outOfFuel
deriving DecidableEq, Repr

/-- `ct = argc - optind; if (ct != 7 && ct != 8)` with int arithmetic. -/
def store_ct_ok (optind argcTokens : Nat) : Bool :=
  ((argcTokens : Int) - (optind : Int) == 7) ||
    ((argcTokens : Int) - (optind : Int) == 8)

/-- `dir[0] == '/'` (an empty string reads its NUL terminator, which is
not `'/'`). -/
def dirAbsolute (dir : String) : Bool := dir.data.head? == some '/'

structure StoreFields where
  pid : Nat
  uid : Nat
  gid : Nat
  sig : Nat
  ts : Nat
  comm : Option String
  path : Option String
deriving DecidableEq, Repr

/-- `parse_unum(argv[i], name)`: dereferencing the NULL slot or reading
past it is a crash / undefined behaviour, modelled as distinguished
errors. -/
def parseField (args : List String) (i : Nat) (name : String) :
    Except StoreErr Nat :=
  match argvGet args i with
  | ArgRead.tok s =>
    match parse_unum s name with
    | Except.ok v => Except.ok v
    | Except.error e => Except.error (StoreErr.parseFail e)
  | ArgRead.null => Except.error (StoreErr.nullArg name)
  | ArgRead.oob => Except.error (StoreErr.oobArg name)

/-- The field extraction of `act_store` (lines 290-301): five
`parse_unum` calls at `argv[optind+1] .. argv[optind+5]` (`argv[optind+6]`
is the core limit, skipped), then the plain pointer reads
`comm = argv[optind+7]` and `path = argv[optind+8]`. -/
def act_store_fields (optind : Nat) (args : List String) :
    Except StoreErr StoreFields := do
  let pid ← parseField args (optind + 1) "pid"
  let uid ← parseField args (optind + 2) "uid"
  let gid ← parseField args (optind + 3) "gid"
  let sig ← parseField args (optind + 4) "signal"
  let ts ← parseField args (optind + 5) "timestamp"
  let comm ←
    match argvGet args (optind + 7) with
    | ArgRead.tok s => Except.ok (some s)
    | ArgRead.null => Except.ok none
    | ArgRead.oob => Except.error (StoreErr.oobArg "comm")
  let path ←
    match argvGet args (optind + 8) with
    | ArgRead.tok s => Except.ok (some s)
    | ArgRead.null => Except.ok none
    | ArgRead.oob => Except.error (StoreErr.oobArg "path")
  Except.ok ⟨pid, uid, gid, sig, ts, comm, path⟩

/-- Filesystem-visible actions of one `act_store` run, in program order. -/
inductive Eff where
  | mkdirCall (path : String) (mode : Nat)
  | opendirCall (path : String)
  | openLeafDir (leaf : String) (mode : Nat)
  | openCore
  | coreWrite (bytes : List Nat)
  | openInfo
  | infoWrite (text : String)
deriving DecidableEq, Repr

/-- Environment for one store run: which `mkdir`s fail hard, the
pre-existing directories, whether the various opens succeed, the stdin
bytes and the copy schedules (see `copyRun`). -/
structure StoreEnv where
  hardFail : String → Bool
  fs0 : List String
  opendirOk : Bool
  openLeafOk : Bool
  openCoreOk : Bool
  openInfoOk : Bool
  stdin : List Nat
  rs : Nat → Nat
  ws : Nat → Nat
  fuel : Nat

/-- glibc `%s` with a NULL pointer prints `(null)` (ISO C leaves it
undefined). -/
def cOrNull : Option String → String
  | some s => s
  | none => "(null)"

/-- The `dprintf` format of the `info.txt` record (lines 385-393). -/
def infoRecord (f : StoreFields) : String :=
  "pid: " ++ Nat.repr f.pid ++ "\n" ++
  "uid: " ++ Nat.repr f.uid ++ "\n" ++
  "gid: " ++ Nat.repr f.gid ++ "\n" ++
  "signal: " ++ Nat.repr f.sig ++ "\n" ++
  "timestamp: " ++ Nat.repr f.ts ++ "\n" ++
  "comm: " ++ cOrNull f.comm ++ "\n" ++
  "path: " ++ cOrNull f.path ++ "\n"

/-- The filesystem phase of `act_store` (everything after the argument
checks and parses, lines 303-397): mkdir walk, `opendir`, leaf-name
formatting, `openat` of the leaf directory (`O_CREAT|O_DIRECTORY`, mode
0755), `openat` of `core` (mode 0644), the streaming copy, and the
`info.txt` record. -/
def storeFsPhase (env : StoreEnv) (flds : StoreFields) (dir : String) :
    List Eff × Except StoreErr Unit :=
  let walked := runMkdirs env.hardFail env.fs0 (mkdirWalk dir)
  let effs0 := walked.1.map fun p => Eff.mkdirCall p 511
  match walked.2 with
  | none => (effs0, Except.error StoreErr.mkdirFail)
  | some _ =>
    let effs1 := effs0 ++ [Eff.opendirCall dir]
    if env.opendirOk = false then (effs1, Except.error StoreErr.opendirFail)
    else
      match formatLeaf flds.ts flds.pid flds.uid with
      | Except.error LeafErr.strftimeFail =>
        (effs1, Except.error StoreErr.strftimeFail)
      | Except.error (LeafErr.tooLong r) =>
        (effs1, Except.error (StoreErr.pathTooLong r))
      | Except.ok leaf =>
        let effs2 := effs1 ++ [Eff.openLeafDir leaf 493]
        if env.openLeafOk = false then
          (effs2, Except.error StoreErr.openLeafFail)
        else
          let effs3 := effs2 ++ [Eff.openCore]
          if env.openCoreOk = false then
            (effs3, Except.error StoreErr.openCoreFail)
          else
            let copied :=
              copy_file_to_fd env.fuel env.rs env.ws env.stdin
            match copied.1 with
            | CRes.fail =>
              (effs3 ++ [Eff.coreWrite copied.2.out],
                Except.error StoreErr.copyFail)
            | CRes.gas =>
              (effs3 ++ [Eff.coreWrite copied.2.out],
                Except.error StoreErr.outOfFuel)
            | CRes.ok _ =>
              let effs4 := effs3 ++ [Eff.coreWrite copied.2.out, Eff.openInfo]
              if env.openInfoOk = false then
                (effs4, Except.error StoreErr.openInfoFail)
              else
                (effs4 ++ [Eff.infoWrite (infoRecord flds)], Except.ok ())

/-- `act_store(dir, argc, argv)` on the shifted argument vector, with the
stale `optind` as a parameter.  Order as in the source: arity check and
absolute-path check (both merely increment `err`), a single
`if (err) exit(EXIT_FAILURE)`, then the field parses, then the
filesystem phase. -/
def act_store (env : StoreEnv) (optind : Nat) (args : List String)
    (dir : String) : List Eff × Except StoreErr Unit :=
  if (store_ct_ok optind args.length && dirAbsolute dir) = false then
    ([], Except.error StoreErr.usageErr)
  else
    match act_store_fields optind args with
    | Except.error e => ([], Except.error e)
    | Except.ok flds => storeFsPhase env flds dir

/-- A benign environment: no filesystem failures, stdin `[5, 6]`, and
error-free copy schedules. -/
def envBenign : StoreEnv :=
  ⟨fun _ => false, [], true, true, true, true, [5, 6],
    fun _ => 4096, fun _ => 4096, 50⟩

/-- C4: the claim says the metadata record's values are the
correspondingly named positional tokens (pid from the first token, …,
path from the eighth).  With no option flags the stale `optind` is 1 while
`argv` was already shifted past the action word, so the code actually
reads pid from the 3rd token, uid from the 4th, gid from the 5th, signal
from the 6th, timestamp from the 7th — and `comm`/`path` from beyond the
argument list.  On the documented 8-token invocation
(pid=1234, uid=0, gid=0, signal=11, timestamp=1700000000, limit,
comm="myprog", path="/usr/bin/myprog") the run dies parsing the 7th token
`"myprog"` as the timestamp, before any filesystem effect: no metadata
record is written at all. -/
theorem c4_store_misreads_argv :
    act_store envBenign 1
        ["1234", "0", "0", "11", "1700000000", "4294967295", "myprog",
          "/usr/bin/myprog"] "/var/lib/coredumps"
      = ([], Except.error (StoreErr.parseFail (PErr.trailing "timestamp"))) := by
  rfl

/-- C5: the claim says exactly 7 or 8 positional tokens pass the arity
check.  The code computes `ct = argc - optind` with the stale `optind`
(1 with no option flags) against the already-shifted `argv`, so a 7-token
invocation yields `ct = 6` and is fatally rejected (with no filesystem
effect), an 8-token invocation yields `ct = 7` and passes, and a 9-token
invocation yields `ct = 8` and also passes. -/
theorem c5_arity_check_off_by_one :
    store_ct_ok 1 7 = false ∧ store_ct_ok 1 8 = true ∧
      store_ct_ok 1 9 = true ∧
      act_store envBenign 1 ["1", "2", "3", "4", "5", "6", "7"] "/d"
        = ([], Except.error StoreErr.usageErr) := by
  exact ⟨rfl, rfl, rfl, rfl⟩

/-- C8: for every base directory string that does not start with `'/'`
(`dirAbsolute dir = false`, including the empty string, whose first read
byte is the NUL terminator), the store action fails fatally with the
usage error before any filesystem effect, whatever the environment,
`optind`, and argument tokens. -/
theorem c8_absolute_path_enforced (env : StoreEnv) (optind : Nat)
    (args : List String) (dir : String) (h : dirAbsolute dir = false) :
    act_store env optind args dir = ([], Except.error StoreErr.usageErr) := by
  unfold act_store
  rw [h, Bool.and_false]
  rfl

theorem c8_absolute_path_enforced_witness :
    act_store envBenign 1 ["1", "2", "3", "4", "5", "6", "7", "8"]
        "relative/dir"
      = ([], Except.error StoreErr.usageErr) :=
  c8_absolute_path_enforced envBenign 1
    ["1", "2", "3", "4", "5", "6", "7", "8"] "relative/dir" rfl

/-- C9 counterexample: the claim says a numeric token is accepted only if
it parses as a *non-negative* integer.  `strtoumax` with base 0 accepts an
optional sign and negates in uintmax_t arithmetic, so the token `"-5"` is
accepted by `parse_unum` with value 2^64 - 5 instead of being a fatal
parse failure. -/
theorem c9_negative_token_accepted :
    parse_unum "-5" "pid" = Except.ok 18446744073709551611 := by
  rfl

/-- C9 amended: every numeric CrashEvent field is parsed with
`strtoumax`-base-0 semantics — tokens with trailing garbage or magnitude
overflow are rejected, but sign-prefixed tokens are accepted with
modulo-2^64 wraparound — and every parse failure is fatal before any
filesystem side effect: whenever the field-extraction stage fails, the
store action exits with that error and an empty effect trace. -/
theorem c9_parse_failure_before_fs (env : StoreEnv) (optind : Nat)
    (args : List String) (dir : String) (e : StoreErr)
    (hck : (store_ct_ok optind args.length && dirAbsolute dir) = true)
    (h : act_store_fields optind args = Except.error e) :
    act_store env optind args dir = ([], Except.error e) := by
  unfold act_store
  rw [hck, h]
  rfl

theorem c9_parse_failure_before_fs_witness :
    act_store envBenign 1 ["1", "2", "3", "4", "4x", "6", "7", "8", "9"] "/d"
      = ([], Except.error (StoreErr.parseFail (PErr.trailing "gid"))) :=
  c9_parse_failure_before_fs envBenign 1
    ["1", "2", "3", "4", "4x", "6", "7", "8", "9"] "/d"
    (StoreErr.parseFail (PErr.trailing "gid")) rfl rfl

/-! ## C6: directory initializer lemmas -/

theorem takeUntilSlash_eq : ∀ (cs b a : List Char),
    takeUntilSlash cs = some (b, a) → cs = b ++ '/' :: a := by
  intro cs
  induction cs with
  | nil =>
    intro b a h
    simp [takeUntilSlash] at h
  | cons c cs ih =>
    intro b a h
    by_cases hc : c = '/'
    · subst hc
      simp [takeUntilSlash] at h
      rw [h.1, ← h.2]
      rfl
    · rw [takeUntilSlash, if_neg hc] at h
      cases hcs : takeUntilSlash cs with
      | none =>
        rw [hcs] at h
        simp at h
      | some p =>
        rw [hcs] at h
        simp at h
        rw [← h.1, ← h.2, List.cons_append, ← ih p.1 p.2 hcs]

/-- Every path the walk attempts is a prefix of the full directory
string. -/
theorem mkdirWalkAux_mem_prefix :
    ∀ (fuel : Nat) (acc rest l : List Char),
      l ∈ mkdirWalkAux fuel acc rest → ∃ t, l ++ t = acc ++ rest := by
  intro fuel
  induction fuel with
  | zero =>
    intro acc rest l hl
    simp [mkdirWalkAux] at hl
    exact ⟨[], by rw [hl, List.append_nil]⟩
  | succ n ih =>
    intro acc rest l hl
    rw [mkdirWalkAux] at hl
    cases hts : takeUntilSlash rest with
    | none =>
      rw [hts] at hl
      simp at hl
      exact ⟨[], by rw [hl, List.append_nil]⟩
    | some p =>
      rw [hts] at hl
      have hrest := takeUntilSlash_eq rest p.1 p.2 hts
      rcases List.mem_cons.mp hl with hhd | htl
      · refine ⟨'/' :: p.2, ?_⟩
        rw [hhd, hrest, List.append_assoc]
      · obtain ⟨t, ht⟩ := ih (acc ++ p.1 ++ ['/']) p.2 l htl
        refine ⟨t, ?_⟩
        rw [ht, hrest]
        simp [List.append_assoc]

/-- The full directory string is always among the attempted paths. -/
theorem mkdirWalkAux_self_mem :
    ∀ (fuel : Nat) (acc rest : List Char),
      (acc ++ rest) ∈ mkdirWalkAux fuel acc rest := by
  intro fuel
  induction fuel with
  | zero =>
    intro acc rest
    simp [mkdirWalkAux]
  | succ n ih =>
    intro acc rest
    rw [mkdirWalkAux]
    cases hts : takeUntilSlash rest with
    | none => simp
    | some p =>
      have hrest := takeUntilSlash_eq rest p.1 p.2 hts
      refine List.mem_cons_of_mem _ ?_
      have := ih (acc ++ p.1 ++ ['/']) p.2
      have heq : acc ++ p.1 ++ ['/'] ++ p.2 = acc ++ rest := by
        rw [hrest]
        simp [List.append_assoc]
      rw [heq] at this
      exact this

/-- Monotonicity: a successful walk only adds directories. -/
theorem runMkdirs_subset (hf : String → Bool) :
    ∀ (ps : List String) (fs fs' : List String),
      (runMkdirs hf fs ps).2 = some fs' → ∀ x ∈ fs, x ∈ fs' := by
  intro ps
  induction ps with
  | nil =>
    intro fs fs' h x hx
    simp [runMkdirs] at h
    rw [← h]
    exact hx
  | cons p ps ih =>
    intro fs fs' h x hx
    rw [runMkdirs] at h
    split at h
    · exact ih fs fs' h x hx
    · split at h
      · simp at h
      · exact ih (p :: fs) fs' h x (List.mem_cons_of_mem p hx)

/-- After a successful walk every attempted path exists. -/
theorem runMkdirs_mem (hf : String → Bool) :
    ∀ (ps : List String) (fs fs' : List String),
      (runMkdirs hf fs ps).2 = some fs' → ∀ p ∈ ps, p ∈ fs' := by
  intro ps
  induction ps with
  | nil =>
    intro fs fs' _ p hp
    simp at hp
  | cons q ps ih =>
    intro fs fs' h p hp
    rw [runMkdirs] at h
    split at h
    · rcases List.mem_cons.mp hp with hq | hps
      · rw [hq]
        exact runMkdirs_subset hf ps fs fs' h q (by assumption)
      · exact ih fs fs' h p hps
    · split at h
      · simp at h
      · rcases List.mem_cons.mp hp with hq | hps
        · rw [hq]
          exact runMkdirs_subset hf ps (q :: fs) fs' h q
            (List.mem_cons_self q fs)
        · exact ih (q :: fs) fs' h p hps

/-- If every path already exists, the walk attempts all of them, changes
nothing and succeeds — whatever the hard-failure oracle says
("already exists" short-circuits it). -/
theorem runMkdirs_all_exist (hf : String → Bool) :
    ∀ (ps fs : List String), (∀ p ∈ ps, p ∈ fs) →
      runMkdirs hf fs ps = (ps, some fs) := by
  intro ps
  induction ps with
  | nil =>
    intro fs _
    rfl
  | cons p ps ih =>
    intro fs hall
    rw [runMkdirs, if_pos (hall p (List.mem_cons_self p ps))]
    rw [ih fs fun q hq => hall q (List.mem_cons_of_mem p hq)]

/-- A successful walk attempts exactly the requested paths, in order. -/
theorem runMkdirs_attempts (hf : String → Bool) :
    ∀ (ps : List String) (fs fs' : List String),
      (runMkdirs hf fs ps).2 = some fs' → (runMkdirs hf fs ps).1 = ps := by
  intro ps
  induction ps with
  | nil =>
    intro fs fs' _
    rfl
  | cons p ps ih =>
    intro fs fs' h
    rw [runMkdirs] at h ⊢
    split at h
    · rename_i hin
      rw [if_pos hin]
      show p :: (runMkdirs hf fs ps).1 = p :: ps
      rw [ih fs fs' h]
    · rename_i hnin
      split at h
      · simp at h
      · rename_i hnf
        rw [if_neg hnin, if_neg hnf]
        show p :: (runMkdirs hf (p :: fs) ps).1 = p :: ps
        rw [ih (p :: fs) fs' h]

/-- No duplicate directories are ever created. -/
theorem runMkdirs_nodup (hf : String → Bool) :
    ∀ (ps : List String) (fs fs' : List String), fs.Nodup →
      (runMkdirs hf fs ps).2 = some fs' → fs'.Nodup := by
  intro ps
  induction ps with
  | nil =>
    intro fs fs' hnd h
    simp [runMkdirs] at h
    rw [← h]
    exact hnd
  | cons p ps ih =>
    intro fs fs' hnd h
    rw [runMkdirs] at h
    split at h
    · exact ih fs fs' hnd h
    · split at h
      · simp at h
      · refine ih (p :: fs) fs' ?_ h
        exact List.nodup_cons.mpr ⟨by assumption, hnd⟩

theorem mkdirWalk_self_mem (dir : String) : dir ∈ mkdirWalk dir := by
  cases hd : dir.data with
  | nil =>
    simp only [mkdirWalk, hd]
    exact List.mem_singleton.mpr rfl
  | cons c rest =>
    simp only [mkdirWalk, hd]
    refine List.mem_map.mpr ⟨c :: rest, ?_, ?_⟩
    · have := mkdirWalkAux_self_mem rest.length [c] rest
      simpa using this
    · show String.mk (c :: rest) = dir
      rw [← hd]

theorem mkdirWalk_mem_prefix (dir : String) :
    ∀ p ∈ mkdirWalk dir, ∃ t, p.data ++ t = dir.data := by
  intro p hp
  cases hd : dir.data with
  | nil =>
    simp only [mkdirWalk, hd] at hp
    rw [List.mem_singleton.mp hp]
    exact ⟨[], by rw [List.append_nil]; exact hd⟩
  | cons c rest =>
    simp only [mkdirWalk, hd] at hp
    obtain ⟨l, hl, hpl⟩ := List.mem_map.mp hp
    obtain ⟨t, ht⟩ := mkdirWalkAux_mem_prefix rest.length [c] rest l hl
    refine ⟨t, ?_⟩
    rw [← hpl]
    exact ht

/-- C6 amended: the directory initializer covers the *base* directory
only (the per-crash leaf is opened separately with
`openat(O_CREAT|O_DIRECTORY, 0755)`, see the counterexample): for every
hard-failure oracle and starting filesystem, if the walk over the base
directory succeeds then (1) every attempted path exists afterwards,
(2) running the walk a second time attempts the same paths in the same
order, succeeds, and changes nothing — idempotence, (3) no directory is
present twice, (4) the first run attempted exactly the walk's paths in
order, (5) the walk includes the full base directory, and (6) every
attempted path is a prefix of the base directory string. -/
theorem c6_dirinit_amended (dir : String) (hf : String → Bool)
    (fs fs' : List String) (hnd : fs.Nodup)
    (hrun : (runMkdirs hf fs (mkdirWalk dir)).2 = some fs') :
    (∀ p ∈ mkdirWalk dir, p ∈ fs') ∧
      runMkdirs hf fs' (mkdirWalk dir) = (mkdirWalk dir, some fs') ∧
      fs'.Nodup ∧
      (runMkdirs hf fs (mkdirWalk dir)).1 = mkdirWalk dir ∧
      dir ∈ mkdirWalk dir ∧
      (∀ p ∈ mkdirWalk dir, ∃ t, p.data ++ t = dir.data) := by
  have hmem := runMkdirs_mem hf (mkdirWalk dir) fs fs' hrun
  exact ⟨hmem, runMkdirs_all_exist hf (mkdirWalk dir) fs' hmem,
    runMkdirs_nodup hf (mkdirWalk dir) fs fs' hnd hrun,
    runMkdirs_attempts hf (mkdirWalk dir) fs fs' hrun,
    mkdirWalk_self_mem dir, mkdirWalk_mem_prefix dir⟩

theorem c6_dirinit_amended_witness :
    (∀ p ∈ mkdirWalk "/a/b", p ∈ ["/a/b", "/a"]) ∧
      runMkdirs (fun _ => false) ["/a/b", "/a"] (mkdirWalk "/a/b")
        = (mkdirWalk "/a/b", some ["/a/b", "/a"]) ∧
      (["/a/b", "/a"] : List String).Nodup ∧
      (runMkdirs (fun _ => false) [] (mkdirWalk "/a/b")).1 = mkdirWalk "/a/b" ∧
      "/a/b" ∈ mkdirWalk "/a/b" ∧
      (∀ p ∈ mkdirWalk "/a/b", ∃ t, p.data ++ t = ("/a/b" : String).data) :=
  c6_dirinit_amended "/a/b" (fun _ => false) [] ["/a/b", "/a"]
    List.nodup_nil (by rfl)

/-- Nine positional tokens that pass the (off-by-one, see C5) arity check
and parse at the positions the code actually reads: pid is taken from the
3rd token, uid from the 4th, gid from the 5th, signal from the 6th,
timestamp from the 7th, comm from the 9th; the path read lands on the
argv NULL terminator. -/
def toks9 : List String :=
  ["7", "7", "1", "2", "3", "4", "0", "junk", "mycomm"]

def effMkdirPath : Eff → Option String
  | Eff.mkdirCall p _ => some p
  | _ => none

/-- C6 counterexample: the claim says the initializer creates every path
component of base-dir *plus the per-crash leaf directory* with mode 0777.
Running the full store pipeline with base directory "/a/b" (and a
CrashEvent yielding leaf `1970-01-01_00:00:00.pid=1.uid=2`), the paths
passed to `mkdir` are exactly `/a` and `/a/b`: the leaf directory is never
`mkdir`ed — neither as an absolute path nor relative — and is instead
opened with `openat(O_CREAT|O_DIRECTORY, mode 0755)`, while the run
completes successfully. -/
theorem c6_leaf_dir_not_created :
    (act_store envBenign 1 toks9 "/a/b").1.filterMap effMkdirPath
        = ["/a", "/a/b"] ∧
      "/a/b/1970-01-01_00:00:00.pid=1.uid=2"
          ∉ (act_store envBenign 1 toks9 "/a/b").1.filterMap effMkdirPath ∧
      "1970-01-01_00:00:00.pid=1.uid=2"
          ∉ (act_store envBenign 1 toks9 "/a/b").1.filterMap effMkdirPath ∧
      Eff.openLeafDir "1970-01-01_00:00:00.pid=1.uid=2" 493
          ∈ (act_store envBenign 1 toks9 "/a/b").1 ∧
      (act_store envBenign 1 toks9 "/a/b").2 = Except.ok () := by
  refine ⟨by decide, by decide, by decide, by decide, rfl⟩

/-- C7: the leaf name is a pure function of (timestamp, pid, uid) — two
CrashEvents sharing pid, uid and the same second yield the identical
storage path — and equals the UTC calendar time at second resolution
followed by `.pid=<pid>.uid=<uid>` whenever it fits in the `PATH_MAX`
buffer; if the suffix would not fit, the store action fails fatally
reporting the number of bytes the suffix would have needed (the
`snprintf` return value).  The hypothesis `ts < 2^63` marks the domain on
which the model of `gmtime_r` is faithful (the C code converts the parsed
`uintmax_t` to `time_t` without an overflow check, as its own FIXME
notes). -/
theorem c7_leaf_path (ts pid uid : Nat) (_hts : ts < 2 ^ 63) :
    (∀ ts2 pid2 uid2, ts = ts2 → pid = pid2 → uid = uid2 →
        formatLeaf ts pid uid = formatLeaf ts2 pid2 uid2) ∧
      ((utcFormat ts).length < PATH_MAX →
        (leafSuffix pid uid).length ≤ PATH_MAX - (utcFormat ts).length - 1 →
        formatLeaf ts pid uid
          = Except.ok (utcFormat ts ++ leafSuffix pid uid)) ∧
      ((utcFormat ts).length < PATH_MAX →
        (leafSuffix pid uid).length > PATH_MAX - (utcFormat ts).length - 1 →
        formatLeaf ts pid uid
          = Except.error (LeafErr.tooLong (leafSuffix pid uid).length)) := by
  refine ⟨fun ts2 pid2 uid2 h1 h2 h3 => by rw [h1, h2, h3], ?_, ?_⟩
  · intro hd hs
    simp only [formatLeaf]
    rw [if_neg (by omega), if_neg (by omega)]
  · intro hd hs
    simp only [formatLeaf]
    rw [if_neg (by omega), if_pos hs]

theorem c7_leaf_path_witness :
    formatLeaf 1700000000 1234 0 = formatLeaf 1700000000 1234 0 ∧
      formatLeaf 1700000000 1234 0
        = Except.ok "2023-11-14_22:13:20.pid=1234.uid=0" := by
  have h := c7_leaf_path 1700000000 1234 0 (by norm_num)
  exact ⟨h.1 1700000000 1234 0 rfl rfl rfl,
    (h.2.1 (by decide) (by decide)).trans (by rfl)⟩

/-! ## C10: sequences of staging-buffer operations -/

inductive FbufOp where
  | feed (bs : List Nat)
  | eat (n : Nat)
deriving DecidableEq, Repr

def fbufStep (f : Fbuf) : FbufOp → Fbuf
  | FbufOp.feed bs => fbuf_feed f bs
  | FbufOp.eat n => fbuf_eat f n

def fbufRun (ops : List FbufOp) : Fbuf := ops.foldl fbufStep fbuf_init

/-- The operations' preconditions along a run: a feed never exceeds the
free space (the contract `fbuf_feed` was meant to assert, cf. C3) and an
eat never consumes more than is buffered (`fbuf_eat`'s assert). -/
def fbufOpsOK : Fbuf → List FbufOp → Bool
  | _, [] => true
  | f, FbufOp.feed bs :: rest =>
    decide (bs.length ≤ fbuf_space f) && fbufOpsOK (fbuf_feed f bs) rest
  | f, FbufOp.eat n :: rest =>
    decide (n ≤ fbuf_data f) && fbufOpsOK (fbuf_eat f n) rest

theorem fbufRun_data_le :
    ∀ (ops : List FbufOp) (f : Fbuf), fbuf_data f ≤ FBUF_CAP →
      fbufOpsOK f ops = true →
      fbuf_data (ops.foldl fbufStep f) ≤ FBUF_CAP := by
  intro ops
  induction ops with
  | nil =>
    intro f h _
    exact h
  | cons op rest ih =>
    intro f h hok
    cases op with
    | feed bs =>
      rw [fbufOpsOK, Bool.and_eq_true, decide_eq_true_eq] at hok
      simp only [List.foldl_cons, fbufStep]
      refine ih (fbuf_feed f bs) ?_ hok.2
      show (f.data ++ bs).length ≤ FBUF_CAP
      rw [List.length_append]
      have h1 := hok.1
      unfold fbuf_space at h1
      unfold fbuf_data at h
      omega
    | eat n =>
      rw [fbufOpsOK, Bool.and_eq_true] at hok
      simp only [List.foldl_cons, fbufStep]
      refine ih (fbuf_eat f n) ?_ hok.2
      show (f.data.drop n).length ≤ FBUF_CAP
      rw [List.length_drop]
      unfold fbuf_data at h
      omega

/-- C10: for every staging buffer reachable from `fbuf_init` by feeds and
eats respecting the operations' preconditions, free space plus occupancy
always equals the fixed capacity 4096, the occupancy never exceeds 4096,
and `fbuf_eat n` removes exactly the first `n` buffered bytes, preserving
the order of the remaining bytes. -/
theorem c10_fbuf_invariants (ops : List FbufOp)
    (hok : fbufOpsOK fbuf_init ops = true) :
    fbuf_space (fbufRun ops) + fbuf_data (fbufRun ops) = FBUF_CAP ∧
      fbuf_data (fbufRun ops) ≤ FBUF_CAP ∧
      ∀ n, n ≤ fbuf_data (fbufRun ops) →
        (fbufRun ops).data
            = (fbufRun ops).data.take n ++ (fbuf_eat (fbufRun ops) n).data ∧
          fbuf_data (fbuf_eat (fbufRun ops) n)
            = fbuf_data (fbufRun ops) - n := by
  have hle : fbuf_data (fbufRun ops) ≤ FBUF_CAP :=
    fbufRun_data_le ops fbuf_init (by decide) hok
  refine ⟨?_, hle, ?_⟩
  · unfold fbuf_space fbuf_data at *
    omega
  · intro n _
    constructor
    · show (fbufRun ops).data
        = (fbufRun ops).data.take n ++ (fbufRun ops).data.drop n
      rw [List.take_append_drop]
    · show ((fbufRun ops).data.drop n).length = (fbufRun ops).data.length - n
      rw [List.length_drop]

theorem c10_fbuf_invariants_witness :
    fbuf_space (fbufRun [FbufOp.feed [1, 2, 3], FbufOp.eat 1])
        + fbuf_data (fbufRun [FbufOp.feed [1, 2, 3], FbufOp.eat 1])
        = FBUF_CAP ∧
      fbuf_data (fbufRun [FbufOp.feed [1, 2, 3], FbufOp.eat 1]) ≤ FBUF_CAP ∧
      (fbufRun [FbufOp.feed [1, 2, 3], FbufOp.eat 1]).data
        = (fbufRun [FbufOp.feed [1, 2, 3], FbufOp.eat 1]).data.take 2
            ++ (fbuf_eat (fbufRun [FbufOp.feed [1, 2, 3], FbufOp.eat 1]) 2).data ∧
      fbuf_data (fbuf_eat (fbufRun [FbufOp.feed [1, 2, 3], FbufOp.eat 1]) 2)
        = fbuf_data (fbufRun [FbufOp.feed [1, 2, 3], FbufOp.eat 1]) - 2 := by
  have h := c10_fbuf_invariants [FbufOp.feed [1, 2, 3], FbufOp.eat 1]
    (by decide)
  exact ⟨h.1, h.2.1, (h.2.2 2 (by decide)).1, (h.2.2 2 (by decide)).2⟩
